import Mathlib

/-!
# particle.c (Nate Robins, 1997): a shallow embedding of the particle simulator

The C `float` values are idealised as elements of a linearly ordered field `K`
(the rationals when a definition is evaluated, the reals when the square root
of `psCollide` has to be exact).  The library function `sqrt` and the
generator `drand48` are parameters.  A division whose divisor is zero has no
finite value; the functions that divide return `none` there.
-/

namespace Particle

section Model

variable {K : Type} [LinearOrderedField K]

/-- The constant `PS_GRAVITY` (particle.c line 24). -/
def PS_GRAVITY : K := -9.8

/-- The constant `PS_WATERFALL` (line 25). -/
def PS_WATERFALL : Int := 0

/-- The constant `PS_FOUNTAIN` (line 26). -/
def PS_FOUNTAIN : Int := 1

/-- The struct `PSsphere` (lines 29-32). -/
structure PSsphere (K : Type) where
  x : K
  y : K
  z : K
  radius : K
deriving DecidableEq

/-- The struct `PSparticle` (lines 34-40); the three-element arrays are
spelled out, `position1` standing for `position[1]`. -/
structure PSparticle (K : Type) where
  position0 : K
  position1 : K
  position2 : K
  previous0 : K
  previous1 : K
  previous2 : K
  velocity0 : K
  velocity1 : K
  velocity2 : K
  dampening : K
  alive : Int
deriving DecidableEq

/-- The global `sphere = { 0, 1, 0, 0.25 }` (line 44). -/
def sphere : PSsphere K := { x := 0, y := 1, z := 0, radius := 0.25 }

/-- The function `fequal` (lines 136-146). -/
def fequal (a b : K) : Int :=
  let epsilon : K := 0.1
  let f : K := a - b
  if f < epsilon ∧ f > -epsilon then 1 else 0

/-- The function `psTimeStep` (lines 149-166). -/
def psTimeStep (p : PSparticle K) (dt : K) : PSparticle K :=
  if p.alive = 0 then p
  else
    let v0 := p.velocity0 + 0
    let v1 := p.velocity1 + PS_GRAVITY * dt
    let v2 := p.velocity2 + 0
    { position0 := p.position0 + v0 * dt
      position1 := p.position1 + v1 * dt
      position2 := p.position2 + v2 * dt
      previous0 := p.position0
      previous1 := p.position1
      previous2 := p.position2
      velocity0 := v0
      velocity1 := v1
      velocity2 := v2
      dampening := p.dampening
      alive := p.alive }

/-- The assignments of `psNewParticle` before its closing `psTimeStep`
(lines 172-196).  `drand48` is the stream of generator values and `k` the
number of values drawn so far; the result carries the new count. -/
def psNewParticle_assign (type : Int) (drand48 : Nat → K) (k : Nat)
    (p : PSparticle K) : PSparticle K × Nat :=
  if type = PS_WATERFALL then
    ({ velocity0 := 1 * (drand48 k - 0.5)
       velocity1 := 0
       velocity2 := 0.5 * (drand48 (k + 1) - 0.0)
       position0 := 0
       position1 := 2
       position2 := 0
       previous0 := 0
       previous1 := 2
       previous2 := 0
       dampening := 0.45 * drand48 (k + 2)
       alive := 1 }, k + 3)
  else if type = PS_FOUNTAIN then
    ({ velocity0 := 2 * (drand48 k - 0.5)
       velocity1 := 6
       velocity2 := 2 * (drand48 (k + 1) - 0.5)
       position0 := 0
       position1 := 0
       position2 := 0
       previous0 := 0
       previous1 := 0
       previous2 := 0
       dampening := 0.35 * drand48 (k + 2)
       alive := 1 }, k + 3)
  else (p, k)

/-- The function `psNewParticle` (lines 169-199). -/
def psNewParticle (type : Int) (drand48 : Nat → K) (k : Nat)
    (p : PSparticle K) (dt : K) : PSparticle K × Nat :=
  let q := psNewParticle_assign type drand48 k p
  (psTimeStep q.1 (2 * dt * drand48 q.2), q.2 + 1)

/-- The function `psBounce` (lines 224-247).  `none` when the divisor
`velocity[1]` of `s` is zero. -/
def psBounce (p : PSparticle K) (dt : K) : Option (PSparticle K) :=
  if p.alive = 0 then some p
  else if p.velocity1 = 0 then none
  else
    let s := -p.previous1 / p.velocity1
    some
      { position0 := p.previous0 + p.velocity0 * s + p.velocity0 * (dt - s) * p.dampening
        position1 := -p.velocity1 * (dt - s) * p.dampening
        position2 := p.previous2 + p.velocity2 * s + p.velocity2 * (dt - s) * p.dampening
        previous0 := p.previous0
        previous1 := p.previous1
        previous2 := p.previous2
        velocity0 := p.velocity0 * p.dampening
        velocity1 := p.velocity1 * -p.dampening
        velocity2 := p.velocity2 * p.dampening
        dampening := p.dampening
        alive := p.alive }

/-- The function `psCollide` (lines 249-287), the `#else` branch being the
compiled one.  `sqrt` is the library square root and `sph` the global
`sphere`.  `none` when the divisor `distance` is zero. -/
def psCollide (sqrt : K → K) (sph : PSsphere K) (p : PSparticle K) :
    Option (PSparticle K) :=
  let vx := p.position0 - sph.x
  let vy := p.position1 - sph.y
  let vz := p.position2 - sph.z
  if p.alive = 0 then some p
  else
    let distance := sqrt (vx * vx + vy * vy + vz * vz)
    if distance < sph.radius then
      if distance = 0 then none
      else
        some
          { position0 := sph.x + (vx / distance) * sph.radius
            position1 := sph.y + (vy / distance) * sph.radius
            position2 := sph.z + (vz / distance) * sph.radius
            previous0 := sph.x + (vx / distance) * sph.radius
            previous1 := sph.y + (vy / distance) * sph.radius
            previous2 := sph.z + (vz / distance) * sph.radius
            velocity0 := vx / distance
            velocity1 := vy / distance
            velocity2 := vz / distance
            dampening := p.dampening
            alive := p.alive }
    else some p

/-- The kill check closing the per-particle loop of `idleFunc`
(lines 435-439). -/
def idleFunc_kill (p : PSparticle K) : PSparticle K :=
  if p.position1 < 0.1 ∧ fequal p.velocity1 0 ≠ 0 then { p with alive := 0 } else p

/-- The body of the per-particle loop of `idleFunc` (lines 423-439) on one
particle. -/
def idleFunc_particle (sqrt : K → K) (sph : PSsphere K) (do_sphere : Int) (dt : K)
    (p : PSparticle K) : Option (PSparticle K) :=
  let p1 := psTimeStep p dt
  (if do_sphere ≠ 0 then psCollide sqrt sph p1 else some p1).bind fun p2 =>
  (if p2.position1 ≤ 0 then psBounce p2 dt else some p2).bind fun p3 =>
  some (idleFunc_kill p3)

/-- The process-wide variables the tick reads and writes (lines 43-52), the
static cursor `living` of `idleFunc` (line 396) and the position `draws` in
the stream of `drand48`.  `calls` is a ghost field: the indices passed to
`psNewParticle` so far, oldest first. -/
structure World (K : Type) where
  particles : List (PSparticle K)
  num_particles : Int
  type : Int
  do_sphere : Int
  frame_time : K
  flow : K
  slow_down : K
  living : Int
  draws : Nat
  calls : List Int

/-- One pass through the body of the spawn loop of `idleFunc`
(lines 416-419).  `none` when `living` is not an index of the array. -/
def idleFunc_spawn_body (drand48 : Nat → K) (dt : K) (w : World K) : Option (World K) :=
  if w.living < 0 then none
  else
    match w.particles.get? w.living.toNat with
    | none => none
    | some p =>
      let r := psNewParticle w.type drand48 w.draws p dt
      let living := w.living + 1
      some { w with
        particles := w.particles.set w.living.toNat r.1
        draws := r.2
        calls := w.calls ++ [w.living]
        living := if living ≥ w.num_particles then 0 else living }

/-- The spawn loop `for (i = 0; i < flow*dt; i++)` of `idleFunc`
(lines 415-420), entered with the counter at `i`.  The counter is a C `int`,
taken here as a natural number. -/
def idleFunc_spawn [FloorSemiring K] (drand48 : Nat → K) (dt : K) (i : Nat) (w : World K) :
    Option (World K) :=
  if h : (i : K) < w.flow * dt then
    match h1 : idleFunc_spawn_body drand48 dt w with
    | none => none
    | some w1 =>
      have hf : w1.flow = w.flow := by
        unfold idleFunc_spawn_body at h1
        split at h1
        · exact absurd h1 (by simp)
        · split at h1
          · exact absurd h1 (by simp)
          · simp only [Option.some.injEq] at h1
            rw [← h1]
      idleFunc_spawn drand48 dt (i + 1) w1
  else some w
termination_by ⌈w.flow * dt⌉₊ - i
decreasing_by
  rw [hf]
  have h2 : i < ⌈w.flow * dt⌉₊ := Nat.lt_ceil.mpr h
  omega

/-- The per-particle loop `for (i = 0; i < num_particles; i++)` of `idleFunc`
(lines 422-440) over the array, first element first. -/
def idleFunc_particles (sqrt : K → K) (sph : PSsphere K) (do_sphere : Int) (dt : K) :
    List (PSparticle K) → Option (List (PSparticle K))
  | [] => some []
  | p :: ps =>
    (idleFunc_particle sqrt sph do_sphere dt p).bind fun q =>
    (idleFunc_particles sqrt sph do_sphere dt ps).bind fun qs =>
    some (q :: qs)

/-- The function `idleFunc` (lines 392-443) without its redisplay request.
`timedelta` is the value the call `timedelta()` returns.  `none` when a
particle step has no finite value or an index leaves the array. -/
def idleFunc [FloorSemiring K] (sqrt : K → K) (drand48 : Nat → K) (timedelta : K) (w : World K) :
    Option (World K) :=
  let dt := timedelta
  let frame_time := w.frame_time + dt
  let slow_down : K := if dt > 0.1 then 0.75 else if dt < 0.1 then 1 else w.slow_down
  let dt := dt * slow_down
  (idleFunc_spawn drand48 dt 0 { w with frame_time := frame_time, slow_down := slow_down }).bind
    fun w1 =>
  (idleFunc_particles sqrt sphere w1.do_sphere dt w1.particles).bind fun ps =>
  some { w1 with particles := ps }

/-- The cursor `living` is an index of the array, which has `num_particles`
elements (allocated at line 633). -/
def CursorValid (w : World K) : Prop :=
  0 ≤ w.living ∧ w.living < w.num_particles ∧ (w.particles.length : Int) = w.num_particles

/-- A two-particle world at the default settings (`type`, `do_sphere`,
`flow`, `slow_down` of lines 46-52) with the cursor at `c`, used to evaluate
the loops of `idleFunc`. -/
def smallWorld (c : Int) : World ℚ :=
  { particles := [⟨0, 2, 0, 0, 2, 0, 0, 0, 0, 0, 0⟩, ⟨0, 2, 0, 0, 2, 0, 0, 0, 0, 0, 0⟩]
    num_particles := 2
    type := PS_WATERFALL
    do_sphere := 0
    frame_time := 0
    flow := 500
    slow_down := 1
    living := c
    draws := 0
    calls := [] }

end Model

section Lemmas

variable {K : Type} [LinearOrderedField K]

theorem psTimeStep_dead (p : PSparticle K) (dt : K) (h : p.alive = 0) :
    psTimeStep p dt = p := by
  simp [psTimeStep, h]

theorem psTimeStep_alive (p : PSparticle K) (dt : K) (h : p.alive ≠ 0) :
    psTimeStep p dt =
      { position0 := p.position0 + p.velocity0 * dt
        position1 := p.position1 + (p.velocity1 - 9.8 * dt) * dt
        position2 := p.position2 + p.velocity2 * dt
        previous0 := p.position0
        previous1 := p.position1
        previous2 := p.position2
        velocity0 := p.velocity0
        velocity1 := p.velocity1 - 9.8 * dt
        velocity2 := p.velocity2
        dampening := p.dampening
        alive := p.alive } := by
  simp only [psTimeStep, if_neg h, PS_GRAVITY, add_zero, neg_mul, sub_eq_add_neg]

theorem psBounce_dead (p : PSparticle K) (dt : K) (h : p.alive = 0) :
    psBounce p dt = some p := by
  simp [psBounce, h]

theorem psBounce_alive (p : PSparticle K) (dt : K) (h : p.alive ≠ 0)
    (hv : p.velocity1 ≠ 0) :
    psBounce p dt = some
      { position0 := p.previous0 + p.velocity0 * (-p.previous1 / p.velocity1) +
          p.velocity0 * (dt - -p.previous1 / p.velocity1) * p.dampening
        position1 := -p.velocity1 * (dt - -p.previous1 / p.velocity1) * p.dampening
        position2 := p.previous2 + p.velocity2 * (-p.previous1 / p.velocity1) +
          p.velocity2 * (dt - -p.previous1 / p.velocity1) * p.dampening
        previous0 := p.previous0
        previous1 := p.previous1
        previous2 := p.previous2
        velocity0 := p.velocity0 * p.dampening
        velocity1 := p.velocity1 * -p.dampening
        velocity2 := p.velocity2 * p.dampening
        dampening := p.dampening
        alive := p.alive } := by
  simp only [psBounce, if_neg h, if_neg hv]

theorem psBounce_zero_velocity (p : PSparticle K) (dt : K) (h : p.alive ≠ 0)
    (hv : p.velocity1 = 0) : psBounce p dt = none := by
  simp only [psBounce, if_neg h, if_pos hv]

theorem psCollide_dead (sqrt : K → K) (sph : PSsphere K) (p : PSparticle K)
    (h : p.alive = 0) : psCollide sqrt sph p = some p := by
  simp [psCollide, h]

theorem idleFunc_kill_dead (p : PSparticle K) (h : p.alive = 0) :
    idleFunc_kill p = p := by
  cases p
  simp only at h
  subst h
  simp [idleFunc_kill]

theorem fequal_zero_ne_zero_iff (v : K) :
    fequal v 0 ≠ 0 ↔ (-0.1 < v ∧ v < 0.1) := by
  unfold fequal
  simp only [sub_zero, gt_iff_lt]
  split
  · rename_i h
    simp [h.1, h.2]
  · rename_i h
    simp only [ne_eq, not_true_eq_false, false_iff]
    intro h1
    exact h ⟨h1.2, h1.1⟩

theorem idleFunc_spawn_body_spec (drand48 : Nat → K) (dt : K) (w : World K)
    (hw : CursorValid w) :
    ∃ w1, idleFunc_spawn_body drand48 dt w = some w1 ∧
      w1.living = (w.living + 1) % w.num_particles ∧
      w1.calls = w.calls ++ [w.living] ∧
      w1.num_particles = w.num_particles ∧ w1.flow = w.flow ∧
      w1.type = w.type ∧ w1.do_sphere = w.do_sphere ∧
      w1.frame_time = w.frame_time ∧ w1.slow_down = w.slow_down ∧
      CursorValid w1 := by
  obtain ⟨h0, h1, h2⟩ := hw
  have hlt : w.living.toNat < w.particles.length := by omega
  have hget : w.particles.get? w.living.toNat = some (w.particles.get ⟨w.living.toNat, hlt⟩) :=
    List.get?_eq_get hlt
  have hmod : (if w.living + 1 ≥ w.num_particles then 0 else w.living + 1)
      = (w.living + 1) % w.num_particles := by
    split
    · have e : w.living + 1 = w.num_particles := by omega
      rw [e, Int.emod_self]
    · rw [Int.emod_eq_of_lt (by omega) (by omega)]
  refine ⟨{ w with
      particles := w.particles.set w.living.toNat
        (psNewParticle w.type drand48 w.draws (w.particles.get ⟨w.living.toNat, hlt⟩) dt).1
      draws := (psNewParticle w.type drand48 w.draws (w.particles.get ⟨w.living.toNat, hlt⟩) dt).2
      calls := w.calls ++ [w.living]
      living := if w.living + 1 ≥ w.num_particles then 0 else w.living + 1 },
    ?_, hmod, rfl, rfl, rfl, rfl, rfl, rfl, rfl, ?_⟩
  · unfold idleFunc_spawn_body
    rw [if_neg (not_lt.mpr h0)]
    simp only [hget]
  · refine ⟨?_, ?_, ?_⟩
    · show 0 ≤ (if w.living + 1 ≥ w.num_particles then 0 else w.living + 1)
      split <;> omega
    · show (if w.living + 1 ≥ w.num_particles then 0 else w.living + 1) < w.num_particles
      split <;> omega
    · show ((w.particles.set w.living.toNat _).length : Int) = w.num_particles
      rw [List.length_set]
      exact h2

theorem idleFunc_spawn_spec [FloorSemiring K] (drand48 : Nat → K) (dt : K) :
    ∀ (m i : Nat) (w : World K), ⌈w.flow * dt⌉₊ - i = m → CursorValid w →
      ∃ w1, idleFunc_spawn drand48 dt i w = some w1 ∧
        w1.living = (w.living + m) % w.num_particles ∧
        w1.calls = w.calls ++
          (List.range m).map (fun (j : Nat) => (w.living + (j : Int)) % w.num_particles) ∧
        w1.num_particles = w.num_particles ∧ w1.flow = w.flow ∧
        w1.type = w.type ∧ w1.do_sphere = w.do_sphere ∧
        w1.frame_time = w.frame_time ∧ w1.slow_down = w.slow_down ∧
        CursorValid w1 := by
  intro m
  induction m with
  | zero =>
    intro i w hm hw
    have hn : ¬ (i : K) < w.flow * dt := by
      intro h
      have := Nat.lt_ceil.mpr h
      omega
    refine ⟨w, ?_, ?_, ?_, rfl, rfl, rfl, rfl, rfl, rfl, hw⟩
    · rw [idleFunc_spawn, dif_neg hn]
    · obtain ⟨h0, h1, _⟩ := hw
      simp only [Nat.cast_zero, add_zero]
      rw [Int.emod_eq_of_lt h0 h1]
    · simp
  | succ m ih =>
    intro i w hm hw
    have hi : (i : K) < w.flow * dt := Nat.lt_ceil.mp (by omega)
    obtain ⟨w1, hb, hl, hc, hn, hf, ht, hd, hft, hs, hv⟩ :=
      idleFunc_spawn_body_spec drand48 dt w hw
    have hm1 : ⌈w1.flow * dt⌉₊ - (i + 1) = m := by
      rw [hf]
      omega
    obtain ⟨w2, hb2, hl2, hc2, hn2, hf2, ht2, hd2, hft2, hs2, hv2⟩ := ih (i + 1) w1 hm1 hv
    refine ⟨w2, ?_, ?_, ?_, hn2.trans hn, hf2.trans hf, ht2.trans ht, hd2.trans hd,
      hft2.trans hft, hs2.trans hs, hv2⟩
    · rw [idleFunc_spawn, dif_pos hi]
      split
      · rename_i heq
        rw [hb] at heq
        exact absurd heq (by simp)
      · rename_i w1b heq
        rw [hb] at heq
        simp only [Option.some.injEq] at heq
        subst heq
        exact hb2
    · rw [hl2, hl, hn, Int.emod_add_emod]
      congr 1
      push_cast
      ring
    · rw [hc2, hc, hl, hn, List.range_succ_eq_map, List.map_cons, List.map_map,
        List.append_assoc]
      congr 1
      simp only [Nat.cast_zero, add_zero, List.singleton_append, List.cons.injEq]
      obtain ⟨h0, h1, _⟩ := hw
      refine ⟨(Int.emod_eq_of_lt h0 h1).symm, ?_⟩
      apply List.map_congr_left
      intro j _
      simp only [Function.comp_apply, Nat.cast_succ]
      rw [Int.emod_add_emod]
      congr 1
      ring

theorem idleFunc_kill_position1 (p : PSparticle K) :
    (idleFunc_kill p).position1 = p.position1 := by
  unfold idleFunc_kill
  split <;> rfl

/-- The sign of the divisor of `psBounce` at its call from the loop of
`idleFunc` with the sphere off: it is never positive, it is negative when the
particle started above the ground, and it is zero only for a particle on the
ground whose upward velocity is exactly `9.8 * dt`. -/
theorem psBounce_divisor_sign (p : PSparticle K) (dt : K) (ha : p.alive ≠ 0)
    (hy : 0 ≤ p.position1) (hdt : 0 < dt) (hb : (psTimeStep p dt).position1 ≤ 0) :
    (psTimeStep p dt).velocity1 ≤ 0 ∧
      (0 < p.position1 → (psTimeStep p dt).velocity1 < 0) ∧
      ((psTimeStep p dt).velocity1 = 0 → p.position1 = 0 ∧ p.velocity1 = 9.8 * dt) := by
  rw [psTimeStep_alive p dt ha] at hb ⊢
  simp only at hb ⊢
  have hu : p.velocity1 - 9.8 * dt ≤ 0 := by
    by_contra hc
    have hc1 : 0 < p.velocity1 - 9.8 * dt := lt_of_not_le hc
    have := mul_pos hc1 hdt
    linarith
  refine ⟨hu, ?_, ?_⟩
  · intro hpos
    rcases lt_or_eq_of_le hu with h | h
    · exact h
    · rw [h, zero_mul] at hb
      linarith
  · intro h0
    rw [h0, zero_mul] at hb
    exact ⟨by linarith, by linarith⟩

/-- The ground test, `psBounce` and the kill check (lines 431-439) applied to
a freshly integrated live particle: away from the zero divisor the result is
defined and on or above the ground. -/
theorem idleFunc_bounce_kill_above_ground (p : PSparticle K)
    (dt : K) (ha : p.alive ≠ 0) (hy : 0 ≤ p.position1) (hd : 0 ≤ p.dampening)
    (hdt : 0 < dt) (hne : ¬ (p.position1 = 0 ∧ p.velocity1 = 9.8 * dt)) :
    ∃ q, ((if (psTimeStep p dt).position1 ≤ 0 then psBounce (psTimeStep p dt) dt
        else some (psTimeStep p dt)).bind fun p3 => some (idleFunc_kill p3)) = some q ∧
      0 ≤ q.position1 := by
  by_cases hb : (psTimeStep p dt).position1 ≤ 0
  · obtain ⟨h1, _, h3⟩ := psBounce_divisor_sign p dt ha hy hdt hb
    have hv : (psTimeStep p dt).velocity1 ≠ 0 := fun h => hne (h3 h)
    have hlt : (psTimeStep p dt).velocity1 < 0 := lt_of_le_of_ne h1 hv
    have hal : (psTimeStep p dt).alive ≠ 0 := by
      rw [psTimeStep_alive p dt ha]
      exact ha
    rw [if_pos hb, psBounce_alive _ dt hal hv]
    refine ⟨_, rfl, ?_⟩
    rw [idleFunc_kill_position1]
    rw [psTimeStep_alive p dt ha] at hb hv hlt ⊢
    simp only at hb hv hlt ⊢
    have e : -(p.velocity1 - 9.8 * dt) * (dt - -p.position1 / (p.velocity1 - 9.8 * dt))
        = -(p.position1 + (p.velocity1 - 9.8 * dt) * dt) := by
      field_simp
      ring
    rw [e]
    exact mul_nonneg (by linarith) hd
  · rw [if_neg hb]
    refine ⟨_, rfl, ?_⟩
    rw [idleFunc_kill_position1]
    exact le_of_lt (lt_of_not_le hb)

/-- Away from the zero divisor, one pass of the per-particle loop with the
sphere off keeps a live particle on or above the ground. -/
theorem idleFunc_particle_above_ground (sqrt : K → K) (sph : PSsphere K) (p : PSparticle K)
    (dt : K) (ha : p.alive ≠ 0) (hy : 0 ≤ p.position1) (hd : 0 ≤ p.dampening)
    (hdt : 0 < dt) (hne : ¬ (p.position1 = 0 ∧ p.velocity1 = 9.8 * dt)) :
    ∃ q, idleFunc_particle sqrt sph 0 dt p = some q ∧ 0 ≤ q.position1 := by
  unfold idleFunc_particle
  simp only [ne_eq, not_true_eq_false, if_false, Option.some_bind]
  exact idleFunc_bounce_kill_above_ground p dt ha hy hd hdt hne

/-- The same with the default sphere and the exact square root, for either
setting of `do_sphere`: away from the two zero divisors (a particle resting
on the ground with upward velocity `9.8 * dt`, and a particle integrated onto
the centre of the sphere) one pass of the per-particle loop keeps a live
particle on or above the ground. -/
theorem idleFunc_particle_above_ground_sphere (do_sphere : Int) (p : PSparticle ℝ)
    (dt : ℝ) (ha : p.alive ≠ 0) (hy : 0 ≤ p.position1) (hd : 0 ≤ p.dampening)
    (hdt : 0 < dt) (hne : ¬ (p.position1 = 0 ∧ p.velocity1 = 9.8 * dt))
    (hc : psCollide Real.sqrt sphere (psTimeStep p dt) ≠ none) :
    ∃ q, idleFunc_particle Real.sqrt sphere do_sphere dt p = some q ∧ 0 ≤ q.position1 := by
  by_cases hs : do_sphere = 0
  · rw [hs]
    exact idleFunc_particle_above_ground Real.sqrt sphere p dt ha hy hd hdt hne
  · unfold idleFunc_particle
    simp only [ne_eq, hs, not_false_eq_true, if_true]
    have hal : (psTimeStep p dt).alive ≠ 0 := by
      rw [psTimeStep_alive p dt ha]
      exact ha
    generalize hp1 : psTimeStep p dt = p1 at hc hal
    set d2 := (p1.position0 - (sphere : PSsphere ℝ).x) * (p1.position0 - (sphere : PSsphere ℝ).x) +
      (p1.position1 - (sphere : PSsphere ℝ).y) * (p1.position1 - (sphere : PSsphere ℝ).y) +
      (p1.position2 - (sphere : PSsphere ℝ).z) * (p1.position2 - (sphere : PSsphere ℝ).z)
      with hd2
    by_cases hr : Real.sqrt d2 < (sphere : PSsphere ℝ).radius
    · have hne0 : Real.sqrt d2 ≠ 0 := by
        intro h0
        apply hc
        simp only [psCollide, if_neg hal, ← hd2, if_pos hr, if_pos h0]
      have hpos : 0 < Real.sqrt d2 := lt_of_le_of_ne (Real.sqrt_nonneg d2) (Ne.symm hne0)
      have hcol : psCollide Real.sqrt sphere p1 = some
          { position0 := (sphere : PSsphere ℝ).x +
              (p1.position0 - (sphere : PSsphere ℝ).x) / Real.sqrt d2 * (sphere : PSsphere ℝ).radius
            position1 := (sphere : PSsphere ℝ).y +
              (p1.position1 - (sphere : PSsphere ℝ).y) / Real.sqrt d2 * (sphere : PSsphere ℝ).radius
            position2 := (sphere : PSsphere ℝ).z +
              (p1.position2 - (sphere : PSsphere ℝ).z) / Real.sqrt d2 * (sphere : PSsphere ℝ).radius
            previous0 := (sphere : PSsphere ℝ).x +
              (p1.position0 - (sphere : PSsphere ℝ).x) / Real.sqrt d2 * (sphere : PSsphere ℝ).radius
            previous1 := (sphere : PSsphere ℝ).y +
              (p1.position1 - (sphere : PSsphere ℝ).y) / Real.sqrt d2 * (sphere : PSsphere ℝ).radius
            previous2 := (sphere : PSsphere ℝ).z +
              (p1.position2 - (sphere : PSsphere ℝ).z) / Real.sqrt d2 * (sphere : PSsphere ℝ).radius
            velocity0 := (p1.position0 - (sphere : PSsphere ℝ).x) / Real.sqrt d2
            velocity1 := (p1.position1 - (sphere : PSsphere ℝ).y) / Real.sqrt d2
            velocity2 := (p1.position2 - (sphere : PSsphere ℝ).z) / Real.sqrt d2
            dampening := p1.dampening
            alive := p1.alive } := by
        simp only [psCollide, if_neg hal, ← hd2, if_pos hr, if_neg hne0]
      have habs : |p1.position1 - (sphere : PSsphere ℝ).y| ≤ Real.sqrt d2 := by
        apply Real.abs_le_sqrt
        rw [hd2]
        nlinarith [mul_self_nonneg (p1.position0 - (sphere : PSsphere ℝ).x),
          mul_self_nonneg (p1.position2 - (sphere : PSsphere ℝ).z)]
      have hfrac : -1 ≤ (p1.position1 - (sphere : PSsphere ℝ).y) / Real.sqrt d2 := by
        rw [le_div_iff₀ hpos]
        have := (abs_le.mp habs).1
        linarith
      have hy2 : 0 < (sphere : PSsphere ℝ).y +
          (p1.position1 - (sphere : PSsphere ℝ).y) / Real.sqrt d2 * (sphere : PSsphere ℝ).radius := by
        generalize (p1.position1 - (sphere : PSsphere ℝ).y) / Real.sqrt d2 = t at hfrac
        simp only [sphere]
        norm_num
        linarith
      rw [hcol]
      simp only [Option.some_bind, if_neg (not_le.mpr hy2)]
      refine ⟨_, rfl, ?_⟩
      rw [idleFunc_kill_position1]
      exact le_of_lt hy2
    · have hcol : psCollide Real.sqrt sphere p1 = some p1 := by
        simp only [psCollide, if_neg hal, ← hd2, if_neg hr]
      rw [hcol, Option.some_bind, ← hp1]
      exact idleFunc_bounce_kill_above_ground p dt ha hy hd hdt hne

/-- With the exact square root, `psCollide` puts every live particle that is
strictly inside the sphere, but not at its centre, on the surface: the new
distance to the centre is the radius and `previous` equals `position`. -/
theorem psCollide_inside_projects (sph : PSsphere ℝ) (p : PSparticle ℝ) (ha : p.alive ≠ 0)
    (h0 : 0 < Real.sqrt ((p.position0 - sph.x) * (p.position0 - sph.x) +
      (p.position1 - sph.y) * (p.position1 - sph.y) +
      (p.position2 - sph.z) * (p.position2 - sph.z)))
    (hr : Real.sqrt ((p.position0 - sph.x) * (p.position0 - sph.x) +
      (p.position1 - sph.y) * (p.position1 - sph.y) +
      (p.position2 - sph.z) * (p.position2 - sph.z)) < sph.radius) :
    ∃ q, psCollide Real.sqrt sph p = some q ∧
      Real.sqrt ((q.position0 - sph.x) * (q.position0 - sph.x) +
        (q.position1 - sph.y) * (q.position1 - sph.y) +
        (q.position2 - sph.z) * (q.position2 - sph.z)) = sph.radius ∧
      q.previous0 = q.position0 ∧ q.previous1 = q.position1 ∧ q.previous2 = q.position2 := by
  set d2 := (p.position0 - sph.x) * (p.position0 - sph.x) +
      (p.position1 - sph.y) * (p.position1 - sph.y) +
      (p.position2 - sph.z) * (p.position2 - sph.z) with hd2
  have hne : Real.sqrt d2 ≠ 0 := ne_of_gt h0
  have hpos : 0 < d2 := Real.sqrt_pos.mp h0
  have hsq : Real.sqrt d2 * Real.sqrt d2 = d2 := Real.mul_self_sqrt (le_of_lt hpos)
  have hc : psCollide Real.sqrt sph p = some
      { position0 := sph.x + (p.position0 - sph.x) / Real.sqrt d2 * sph.radius
        position1 := sph.y + (p.position1 - sph.y) / Real.sqrt d2 * sph.radius
        position2 := sph.z + (p.position2 - sph.z) / Real.sqrt d2 * sph.radius
        previous0 := sph.x + (p.position0 - sph.x) / Real.sqrt d2 * sph.radius
        previous1 := sph.y + (p.position1 - sph.y) / Real.sqrt d2 * sph.radius
        previous2 := sph.z + (p.position2 - sph.z) / Real.sqrt d2 * sph.radius
        velocity0 := (p.position0 - sph.x) / Real.sqrt d2
        velocity1 := (p.position1 - sph.y) / Real.sqrt d2
        velocity2 := (p.position2 - sph.z) / Real.sqrt d2
        dampening := p.dampening
        alive := p.alive } := by
    simp only [psCollide, if_neg ha, ← hd2, if_pos hr, if_neg hne]
  refine ⟨_, hc, ?_, rfl, rfl, rfl⟩
  · simp only
    have e : (sph.x + (p.position0 - sph.x) / Real.sqrt d2 * sph.radius - sph.x) *
          (sph.x + (p.position0 - sph.x) / Real.sqrt d2 * sph.radius - sph.x) +
        (sph.y + (p.position1 - sph.y) / Real.sqrt d2 * sph.radius - sph.y) *
          (sph.y + (p.position1 - sph.y) / Real.sqrt d2 * sph.radius - sph.y) +
        (sph.z + (p.position2 - sph.z) / Real.sqrt d2 * sph.radius - sph.z) *
          (sph.z + (p.position2 - sph.z) / Real.sqrt d2 * sph.radius - sph.z)
        = sph.radius * sph.radius := by
      have : (sph.x + (p.position0 - sph.x) / Real.sqrt d2 * sph.radius - sph.x) *
          (sph.x + (p.position0 - sph.x) / Real.sqrt d2 * sph.radius - sph.x) +
        (sph.y + (p.position1 - sph.y) / Real.sqrt d2 * sph.radius - sph.y) *
          (sph.y + (p.position1 - sph.y) / Real.sqrt d2 * sph.radius - sph.y) +
        (sph.z + (p.position2 - sph.z) / Real.sqrt d2 * sph.radius - sph.z) *
          (sph.z + (p.position2 - sph.z) / Real.sqrt d2 * sph.radius - sph.z)
        = d2 / (Real.sqrt d2 * Real.sqrt d2) * (sph.radius * sph.radius) := by
        rw [hd2]
        field_simp
        ring
      rw [this, hsq, div_self (ne_of_gt hpos), one_mul]
    rw [e]
    exact Real.sqrt_mul_self (le_of_lt (lt_trans h0 hr))

theorem idleFunc_particles_length (sqrt : K → K) (sph : PSsphere K) (do_sphere : Int)
    (dt : K) : ∀ (ps qs : List (PSparticle K)),
      idleFunc_particles sqrt sph do_sphere dt ps = some qs → qs.length = ps.length := by
  intro ps
  induction ps with
  | nil =>
    intro qs h
    simp only [idleFunc_particles, Option.some.injEq] at h
    rw [← h]
  | cons p ps ih =>
    intro qs h
    simp only [idleFunc_particles] at h
    cases h1 : idleFunc_particle sqrt sph do_sphere dt p with
    | none =>
      rw [h1] at h
      exact absurd h (by simp)
    | some q =>
      rw [h1, Option.some_bind] at h
      cases h2 : idleFunc_particles sqrt sph do_sphere dt ps with
      | none =>
        rw [h2] at h
        exact absurd h (by simp)
      | some qs1 =>
        rw [h2, Option.some_bind, Option.some.injEq] at h
        rw [← h, List.length_cons, List.length_cons, ih qs1 h2]

/-- A whole tick that has a result leaves the cursor on an index of the
array and the array at its length. -/
theorem idleFunc_keeps_cursor [FloorSemiring K] (sqrt : K → K) (drand48 : Nat → K)
    (timedelta : K) (w w1 : World K) (hw : CursorValid w)
    (h : idleFunc sqrt drand48 timedelta w = some w1) :
    CursorValid w1 ∧ w1.num_particles = w.num_particles := by
  unfold idleFunc at h
  simp only at h
  generalize hsd : (if timedelta > 0.1 then (0.75 : K) else if timedelta < 0.1 then 1
    else w.slow_down) = sd at h
  have hw0 : CursorValid { w with frame_time := w.frame_time + timedelta, slow_down := sd } := hw
  obtain ⟨w2, h1, _, _, hn, _, _, _, _, _, hv⟩ :=
    idleFunc_spawn_spec drand48 (timedelta * sd)
      (⌈({ w with frame_time := w.frame_time + timedelta, slow_down := sd } : World K).flow *
        (timedelta * sd)⌉₊) 0
      { w with frame_time := w.frame_time + timedelta, slow_down := sd } (by omega) hw0
  rw [h1, Option.some_bind] at h
  cases h2 : idleFunc_particles sqrt sphere w2.do_sphere (timedelta * sd) w2.particles with
  | none =>
    rw [h2] at h
    exact absurd h (by simp)
  | some qs =>
    rw [h2, Option.some_bind, Option.some.injEq] at h
    have hl := idleFunc_particles_length sqrt sphere w2.do_sphere (timedelta * sd) _ _ h2
    rw [← h]
    refine ⟨⟨hv.1, hv.2.1, ?_⟩, hn⟩
    show ((qs.length : Nat) : Int) = w2.num_particles
    rw [hl]
    exact hv.2.2

end Lemmas

section Claims

variable {K : Type} [LinearOrderedField K]

/-- C1: for a particle with `alive = 0`, every timestep and either setting of
`do_sphere`, each of `psTimeStep`, `psCollide`, `psBounce` and the kill check
returns the particle with every field unchanged, and so does the whole body
of the per-particle loop of `idleFunc`. -/
theorem C1_dead_particle_is_fixed (sqrt : K → K) (sph : PSsphere K) (do_sphere : Int)
    (dt : K) (p : PSparticle K) (h : p.alive = 0) :
    psTimeStep p dt = p ∧ psCollide sqrt sph p = some p ∧ psBounce p dt = some p ∧
      idleFunc_kill p = p ∧ idleFunc_particle sqrt sph do_sphere dt p = some p := by
  refine ⟨psTimeStep_dead p dt h, psCollide_dead sqrt sph p h, psBounce_dead p dt h,
    idleFunc_kill_dead p h, ?_⟩
  unfold idleFunc_particle
  simp only [psTimeStep_dead p dt h, psCollide_dead sqrt sph p h, ite_self, Option.some_bind,
    psBounce_dead p dt h, idleFunc_kill_dead p h]

/-- Witness of C1: a dead particle at (0, 0.05, 0), timestep 0.016, the sphere
enabled. -/
theorem C1_dead_particle_is_fixed_witness :
    psTimeStep (⟨0, 0.05, 0, 0, 0.06, 0, 1, -2, 1, 0.3, 0⟩ : PSparticle ℚ) 0.016
        = ⟨0, 0.05, 0, 0, 0.06, 0, 1, -2, 1, 0.3, 0⟩ ∧
      psCollide (fun x => x) sphere (⟨0, 0.05, 0, 0, 0.06, 0, 1, -2, 1, 0.3, 0⟩ : PSparticle ℚ)
        = some ⟨0, 0.05, 0, 0, 0.06, 0, 1, -2, 1, 0.3, 0⟩ ∧
      psBounce (⟨0, 0.05, 0, 0, 0.06, 0, 1, -2, 1, 0.3, 0⟩ : PSparticle ℚ) 0.016
        = some ⟨0, 0.05, 0, 0, 0.06, 0, 1, -2, 1, 0.3, 0⟩ ∧
      idleFunc_kill (⟨0, 0.05, 0, 0, 0.06, 0, 1, -2, 1, 0.3, 0⟩ : PSparticle ℚ)
        = ⟨0, 0.05, 0, 0, 0.06, 0, 1, -2, 1, 0.3, 0⟩ ∧
      idleFunc_particle (fun x => x) sphere 1 0.016
          (⟨0, 0.05, 0, 0, 0.06, 0, 1, -2, 1, 0.3, 0⟩ : PSparticle ℚ)
        = some ⟨0, 0.05, 0, 0, 0.06, 0, 1, -2, 1, 0.3, 0⟩ :=
  C1_dead_particle_is_fixed (fun x => x) sphere 1 0.016
    (⟨0, 0.05, 0, 0, 0.06, 0, 1, -2, 1, 0.3, 0⟩ : PSparticle ℚ) rfl

/-- C4: the kill check sets `alive` to 0 exactly when `position[1] < 0.1` and
`-0.1 < velocity[1] < 0.1`, and otherwise returns the particle as it is; no
field other than `alive` changes.  A particle with `position[1] = 0.05` and
`velocity[1] = 0.05` ends dead; one with `position[1] = 0.05` and
`velocity[1] = 5.0` keeps its `alive`. -/
theorem C4_kill_check (p : PSparticle K) :
    idleFunc_kill p =
        (if p.position1 < 0.1 ∧ -0.1 < p.velocity1 ∧ p.velocity1 < 0.1
          then { p with alive := 0 } else p) ∧
      (idleFunc_kill p).position0 = p.position0 ∧
      (idleFunc_kill p).position1 = p.position1 ∧
      (idleFunc_kill p).position2 = p.position2 ∧
      (idleFunc_kill p).previous0 = p.previous0 ∧
      (idleFunc_kill p).previous1 = p.previous1 ∧
      (idleFunc_kill p).previous2 = p.previous2 ∧
      (idleFunc_kill p).velocity0 = p.velocity0 ∧
      (idleFunc_kill p).velocity1 = p.velocity1 ∧
      (idleFunc_kill p).velocity2 = p.velocity2 ∧
      (idleFunc_kill p).dampening = p.dampening ∧
      (idleFunc_kill { p with position1 := 0.05, velocity1 := 0.05 }).alive = 0 ∧
      (idleFunc_kill { p with position1 := 0.05, velocity1 := 5.0 }).alive = p.alive := by
  have key : ∀ q : PSparticle K, idleFunc_kill q =
      (if q.position1 < 0.1 ∧ -0.1 < q.velocity1 ∧ q.velocity1 < 0.1
        then { q with alive := 0 } else q) := by
    intro q
    unfold idleFunc_kill
    simp only [fequal_zero_ne_zero_iff]
  refine ⟨key p, ?_, ?_, ?_, ?_, ?_, ?_, ?_, ?_, ?_, ?_, ?_, ?_⟩
  all_goals rw [key]
  all_goals first
    | (split <;> rfl)
    | norm_num

/-- C10: for `num_particles >= 1`, an array of `num_particles` elements and a
cursor `c` with `0 <= c < num_particles`, the spawn loop of `idleFunc` runs to
its end; after its `k` spawns the cursor is `(c + k) mod num_particles`, the
indices passed to `psNewParticle` are `(c + j) mod num_particles` for
`j = 0 .. k-1`, each of them an index of the array, and the cursor is again
in `[0, num_particles)` with the array length unchanged; a whole tick of
`idleFunc` that has a result leaves the cursor in `[0, num_particles)` too,
so the same holds for every later tick. -/
theorem C10_cursor_wraps [FloorSemiring K] (drand48 : Nat → K) (dt : K) (w : World K)
    (hn : 1 ≤ w.num_particles) (hc : 0 ≤ w.living ∧ w.living < w.num_particles)
    (hlen : (w.particles.length : Int) = w.num_particles) :
    ∃ w1 added, idleFunc_spawn drand48 dt 0 w = some w1 ∧
      w1.calls = w.calls ++ added ∧
      added = (List.range added.length).map
        (fun (j : Nat) => (w.living + (j : Int)) % w.num_particles) ∧
      (∀ idx ∈ added, 0 ≤ idx ∧ idx < w.num_particles) ∧
      w1.living = (w.living + (added.length : Int)) % w.num_particles ∧
      (0 ≤ w1.living ∧ w1.living < w1.num_particles) ∧
      w1.num_particles = w.num_particles ∧
      (w1.particles.length : Int) = w1.num_particles ∧
      added.length = ⌈w.flow * dt⌉₊ ∧
      (∀ (sqrt : K → K) (timedelta : K) (w2 : World K),
        idleFunc sqrt drand48 timedelta w = some w2 →
          (0 ≤ w2.living ∧ w2.living < w2.num_particles) ∧
            (w2.particles.length : Int) = w2.num_particles ∧
            w2.num_particles = w.num_particles) := by
  obtain ⟨w1, h1, h2, h3, h4, _, _, _, _, _, h5⟩ :=
    idleFunc_spawn_spec drand48 dt (⌈w.flow * dt⌉₊) 0 w (by omega) ⟨hc.1, hc.2, hlen⟩
  refine ⟨w1, _, h1, h3, ?_, ?_, ?_, ⟨h5.1, h5.2.1⟩, h4, h5.2.2, ?_, ?_⟩
  rotate_left 3
  · rw [List.length_map, List.length_range]
  · intro sqrt timedelta w2 hw2
    obtain ⟨hv, hn2⟩ := idleFunc_keeps_cursor sqrt drand48 timedelta w w2 ⟨hc.1, hc.2, hlen⟩ hw2
    exact ⟨⟨hv.1, hv.2.1⟩, hv.2.2, hn2⟩
  · rw [List.length_map, List.length_range]
  · intro idx hidx
    rw [List.mem_map] at hidx
    obtain ⟨j, _, rfl⟩ := hidx
    exact ⟨Int.emod_nonneg _ (by omega), Int.emod_lt_of_pos _ (by omega)⟩
  · rw [List.length_map, List.length_range]
    exact h2

/-- Witness of C10: the two-particle world with the cursor on the last index
and `dt = 0.001`. -/
theorem C10_cursor_wraps_witness :
    ∃ w1 added, idleFunc_spawn (fun _ => (0 : ℚ)) 0.001 0 (smallWorld 1) = some w1 ∧
      w1.calls = (smallWorld 1).calls ++ added ∧
      added = (List.range added.length).map
        (fun (j : Nat) => ((smallWorld 1).living + (j : Int)) % (smallWorld 1).num_particles) ∧
      (∀ idx ∈ added, 0 ≤ idx ∧ idx < (smallWorld 1).num_particles) ∧
      w1.living = ((smallWorld 1).living + (added.length : Int)) % (smallWorld 1).num_particles ∧
      (0 ≤ w1.living ∧ w1.living < w1.num_particles) ∧
      w1.num_particles = (smallWorld 1).num_particles ∧
      (w1.particles.length : Int) = w1.num_particles ∧
      added.length = ⌈(smallWorld 1).flow * 0.001⌉₊ ∧
      (∀ (sqrt : ℚ → ℚ) (timedelta : ℚ) (w2 : World ℚ),
        idleFunc sqrt (fun _ => (0 : ℚ)) timedelta (smallWorld 1) = some w2 →
          (0 ≤ w2.living ∧ w2.living < w2.num_particles) ∧
            (w2.particles.length : Int) = w2.num_particles ∧
            w2.num_particles = (smallWorld 1).num_particles) :=
  C10_cursor_wraps (fun _ => (0 : ℚ)) 0.001 (smallWorld 1)
    (by simp [smallWorld]) ⟨by simp [smallWorld], by simp [smallWorld]⟩
    (by simp [smallWorld])

/-- C3 fails on the code at the centre of the sphere: the live particle at
(0, 1, 0) is strictly inside the default sphere (distance `sqrt 0 = 0 < 0.25`),
and there `psCollide` divides by the distance 0, so it has no finite result
and the particle is not put on the surface. -/
theorem C3_psCollide_at_centre :
    Real.sqrt ((0 - (sphere : PSsphere ℝ).x) * (0 - (sphere : PSsphere ℝ).x) +
        (1 - (sphere : PSsphere ℝ).y) * (1 - (sphere : PSsphere ℝ).y) +
        (0 - (sphere : PSsphere ℝ).z) * (0 - (sphere : PSsphere ℝ).z)) = 0 ∧
      (0 : ℝ) < (sphere : PSsphere ℝ).radius ∧
      psCollide Real.sqrt sphere (⟨0, 1, 0, 0, 1.1, 0, 0, -1, 0, 0.3, 1⟩ : PSparticle ℝ)
        = none := by
  refine ⟨?_, ?_, ?_⟩
  · norm_num [sphere]
  · norm_num [sphere]
  · norm_num [psCollide, sphere]

/-- C9 fails on the code: the live particle at `position[1] = 0` with
`velocity[1] = 49/64` and `dt = 5/64` (so `9.8 * dt = 49/64`) leaves
`psTimeStep` with `position[1] = 0 <= 0` and `velocity[1] = 0`; the loop of
`idleFunc` therefore calls `psBounce`, whose divisor is zero. -/
theorem C9_psBounce_zero_divisor :
    (0 : ℚ) < 5 / 64 ∧
      (⟨0, 0, 0, 0, 0, 0, 0, 49 / 64, 0, 0.3, 1⟩ : PSparticle ℚ).alive ≠ 0 ∧
      (0 : ℚ) ≤ (⟨0, 0, 0, 0, 0, 0, 0, 49 / 64, 0, 0.3, 1⟩ : PSparticle ℚ).position1 ∧
      (psTimeStep (⟨0, 0, 0, 0, 0, 0, 0, 49 / 64, 0, 0.3, 1⟩ : PSparticle ℚ) (5 / 64)).position1
        ≤ 0 ∧
      (psTimeStep (⟨0, 0, 0, 0, 0, 0, 0, 49 / 64, 0, 0.3, 1⟩ : PSparticle ℚ) (5 / 64)).velocity1
        = 0 ∧
      psBounce (psTimeStep (⟨0, 0, 0, 0, 0, 0, 0, 49 / 64, 0, 0.3, 1⟩ : PSparticle ℚ) (5 / 64))
        (5 / 64) = none ∧
      idleFunc_particle (fun x => x) sphere 0 (5 / 64)
        (⟨0, 0, 0, 0, 0, 0, 0, 49 / 64, 0, 0.3, 1⟩ : PSparticle ℚ) = none := by
  refine ⟨by norm_num, by decide, by norm_num, ?_⟩
  norm_num [idleFunc_particle, psBounce, psTimeStep, PS_GRAVITY]

/-- C6 fails on the code: for the live particle resting at `position[1] = 0`
with `velocity[1] = 49/128`, dampening 0.3 and `dt = 5/128 > 0`, the
per-particle step reaches `psBounce` with `velocity[1] = 0` and has no finite
result, so `position[1] >= 0` does not hold after the step. -/
theorem C6_step_from_ground_undefined :
    (0 : ℚ) < 5 / 128 ∧
      (0 : ℚ) ≤ (⟨0, 0, 0, 0, 0, 0, 0, 49 / 128, 0, 0.3, 1⟩ : PSparticle ℚ).position1 ∧
      (0 : ℚ) ≤ (⟨0, 0, 0, 0, 0, 0, 0, 49 / 128, 0, 0.3, 1⟩ : PSparticle ℚ).dampening ∧
      ¬ ∃ q, idleFunc_particle (fun x => x) sphere 0 (5 / 128)
          (⟨0, 0, 0, 0, 0, 0, 0, 49 / 128, 0, 0.3, 1⟩ : PSparticle ℚ) = some q ∧
        0 ≤ q.position1 := by
  refine ⟨by norm_num, by norm_num, by norm_num, ?_⟩
  rintro ⟨q, hq, _⟩
  have e : idleFunc_particle (fun x => x) sphere 0 (5 / 128)
      (⟨0, 0, 0, 0, 0, 0, 0, 49 / 128, 0, 0.3, 1⟩ : PSparticle ℚ) = none := by
    norm_num [idleFunc_particle, psBounce, psTimeStep, PS_GRAVITY]
  rw [e] at hq
  exact Option.noConfusion hq

end Claims

end Particle
